import Mathlib

/-!
Verification of the `code-structure` tree generator (`src/tree.js`).

The development shallowly embeds the program's pure logic:

* `loadConfig` / `DEFAULT_CONFIG` — configuration resolution (tree.js lines 96-137);
* `shouldExcludePath` / `shouldExcludeFile` — the path filter (lines 338-359);
* an AST model together with `walkSignatures` — the structural signature
  extraction strategy (acorn parse + acorn-walk `simple` visitors, lines 146-216;
  `simple` invokes a node's visitor after walking its children, so emission
  order is post-order);
* character-list scanners implementing the fallback regexes of
  `extractMethodsFromRawContent` (lines 251-320);
* `extractMethodSignatures` — the try/catch structure of lines 140-225, with
  file reading and acorn parsing supplied as oracle arguments
  (`Except`-valued results model JS exceptions);
* `generateTreeFuel` — the recursive traversal of lines 332-446 over an
  in-memory filesystem (`Entry`).  Recursion is bounded by an explicit fuel
  parameter so that the definition is structural; fuel exhaustion returns the
  same empty string as the depth cutoff and every theorem either quantifies
  over all fuels or supplies a sufficient one.

File reading and `fs.statSync` are modelled by an `Option String` content field
and a `statOk` flag on each filesystem entry; JS string functions
(`split`, `startsWith`, `includes`, default `Array.sort`) are re-implemented on
`List Char` so that all definitions compute by kernel reduction.
-/

/-! ## Basic character and string utilities (models of the JS string API) -/

/-- JS `String.prototype.split` with a single-character separator, on char lists. -/
def splitChar (sep : Char) : List Char → List (List Char)
  | [] => [[]]
  | c :: rest =>
    let r := splitChar sep rest
    if c = sep then [] :: r
    else
      match r with
      | [] => [[c]]
      | h :: t => (c :: h) :: t

/-- JS `relativePath.split('/')`. -/
def splitSlash (s : String) : List String :=
  (splitChar '/' s.data).map String.mk

/-- Line counting: JS `fileContent.split('\n').length`. -/
def jsLineCount (s : String) : Nat :=
  (splitChar '\n' s.data).length

/-- Prefix test on char lists. -/
def isPrefixCharList : List Char → List Char → Bool
  | [], _ => true
  | _ :: _, [] => false
  | a :: as, b :: bs => a == b && isPrefixCharList as bs

/-- JS `String.prototype.startsWith`. -/
def startsWithB (s pre : String) : Bool :=
  isPrefixCharList pre.data s.data

/-- Substring test on char lists (JS `String.prototype.includes`). -/
def isInfixCharList (pat : List Char) : List Char → Bool
  | [] => isPrefixCharList pat []
  | c :: rest => isPrefixCharList pat (c :: rest) || isInfixCharList pat rest

/-- JS `full.includes(pat)`. -/
def includesB (s pat : String) : Bool :=
  isInfixCharList pat.data s.data

/-- Code-unit comparison underlying the default JS `Array.prototype.sort`. -/
def charsLe : List Char → List Char → Bool
  | [], _ => true
  | _ :: _, [] => false
  | a :: as, b :: bs =>
    if a.toNat < b.toNat then true
    else if b.toNat < a.toNat then false
    else charsLe as bs

/-- Default JS string comparison `a <= b`. -/
def strLeB (a b : String) : Bool := charsLe a.data b.data

/-- JS `Array.prototype.join(sep)`. -/
def joinWith (sep : String) : List String → String
  | [] => ""
  | [x] => x
  | x :: y :: rest => x ++ sep ++ joinWith sep (y :: rest)

/-- Characters of the JS regex class `\s` (ASCII fragment). -/
def isSpaceChar (c : Char) : Bool :=
  c = ' ' || c = '\t' || c = '\n' || c = '\r' || c = '\x0b' || c = '\x0c'

/-- Characters of the JS regex class `\w`. -/
def isWordChar (c : Char) : Bool :=
  (('a' ≤ c && c ≤ 'z') || ('A' ≤ c && c ≤ 'Z') || ('0' ≤ c && c ≤ '9') || c = '_')

/-- JS `String.prototype.trim` (ASCII whitespace fragment). -/
def trimChars (s : List Char) : List Char :=
  ((s.dropWhile isSpaceChar).reverse.dropWhile isSpaceChar).reverse

/-! ## Configuration (tree.js lines 96-137) -/

/-- Resolved configuration: the three rule sets of `DEFAULT_CONFIG` /
`loadConfig`. -/
structure Config where
  excludePaths : List String
  excludeFiles : List String
  includeExtensions : List String
deriving Repr, DecidableEq

/-- tree.js lines 96-109. -/
def DEFAULT_CONFIG : Config :=
  { excludePaths := ["node_modules"]
  , excludeFiles := ["package-lock.json"]
  , includeExtensions := [".js", ".mjs", ".cjs", ".json"] }

/-- The recognized fields of a parsed `.code-structure.json` file.  A `none`
field models an absent (JS-falsy) field; `config.field || fallback` in the
source is `Option.getD`. -/
structure ConfigFile where
  excludePaths : Option (List String)
  excludeDirs : Option (List String)
  excludeFiles : Option (List String)
  includeExtensions : Option (List String)
deriving Repr, DecidableEq

/-- The merge of tree.js lines 121-125. -/
def mergeConfig (c : ConfigFile) : Config :=
  { excludePaths :=
      DEFAULT_CONFIG.excludePaths ++ c.excludePaths.getD [] ++ c.excludeDirs.getD []
  , excludeFiles := DEFAULT_CONFIG.excludeFiles ++ c.excludeFiles.getD []
  , includeExtensions := c.includeExtensions.getD DEFAULT_CONFIG.includeExtensions }

/-- tree.js lines 112-137.  The argument models the outcome of looking for and
parsing `.code-structure.json`: `none` when the file does not exist,
`some (.error _)` when reading or `JSON.parse` throws (the `catch` branch), and
`some (.ok c)` for a parsed file. -/
def loadConfig (configFile : Option (Except String ConfigFile)) : Config :=
  match configFile with
  | some (Except.ok c) => mergeConfig c
  | some (Except.error _) => DEFAULT_CONFIG
  | none => DEFAULT_CONFIG

/-! ## Path filtering (tree.js lines 338-359) -/

/-- tree.js lines 338-354, closure argument `EXCLUDE_PATHS` made explicit. -/
def shouldExcludePath (excludePaths : List String) (relativePath : String) : Bool :=
  excludePaths.any fun excludePath =>
    if relativePath == excludePath then true
    else if startsWithB relativePath (excludePath ++ "/") then true
    else (splitSlash relativePath).contains excludePath

/-- JS `path.basename` restricted to the forward-slash paths this program
builds: the last `/`-separated component. -/
def basename (s : String) : String :=
  (splitSlash s).getLastD ""

/-- tree.js lines 356-359. -/
def shouldExcludeFile (excludeFiles : List String) (filePath : String) : Bool :=
  excludeFiles.contains (basename filePath)

/-! ## AST model for the structural extraction strategy (tree.js lines 146-216)

The acorn node shapes used by the visitors, restricted to the fields the
source reads.  Function bodies are elided: the modelled programs place all
declarations at the top level, which is the only situation the verified
claims exercise. -/

/-- A formal parameter node (the shapes distinguished by `extractParams`).
`assignment` keeps the source text of the default expression (which
`extractParams` ignores); an object-pattern property is `some key.name` or
`none` when the property has no named key. -/
inductive Param where
  | identifier (name : String)
  | assignment (leftName : String) (rightRaw : String)
  | rest (argName : String)
  | objectPat (props : List (Option String))
  | arrayPat
  | otherParam
deriving Repr, DecidableEq

/-- tree.js lines 228-248 (`extractParams` body for one parameter). -/
def renderParam : Param → String
  | Param.identifier n => n
  | Param.assignment l _ => l ++ " = ..."
  | Param.rest a => "..." ++ a
  | Param.objectPat props =>
    if props.length > 0 then
      "\x7b" ++ joinWith ", " (props.map (fun p => p.getD "?")) ++ "\x7d"
    else "\x7b...\x7d"
  | Param.arrayPat => "[...]"
  | Param.otherParam => "?"

/-- tree.js lines 228-248: `extractParams`. -/
def extractParams (ps : List Param) : String :=
  joinWith ", " (ps.map renderParam)

/-- An expression in initializer / default-export position. -/
inductive Expr where
  | arrowFn (isAsync : Bool) (params : List Param)
  | functionExpr (isAsync : Bool) (params : List Param)
  | otherExpr
deriving Repr, DecidableEq

/-- A `VariableDeclarator`: `id.name` is `none` for destructuring patterns. -/
structure Declarator where
  idName : Option String
  init : Option Expr
deriving Repr, DecidableEq

/-- A `MethodDefinition`: `key.name` for identifier keys, `key.value` for
literal keys, and the `async` flag and params of its value. -/
structure MethodDef where
  keyName : Option String
  keyValue : Option String
  valueAsync : Bool
  params : List Param
deriving Repr, DecidableEq

/-- The declaration wrapped by an `ExportNamedDeclaration` (`noDecl` models a
specifier-only `export { ... }`). -/
inductive NamedPayload where
  | functionDecl (id : Option String) (isAsync : Bool) (params : List Param)
  | variableDecl (declarators : List Declarator)
  | classDecl (methods : List MethodDef)
  | noDecl
deriving Repr, DecidableEq

/-- The declaration wrapped by an `ExportDefaultDeclaration`. -/
inductive DefaultPayload where
  | functionDecl (id : Option String) (isAsync : Bool) (params : List Param)
  | exprPayload (e : Expr)
deriving Repr, DecidableEq

/-- Top-level statements relevant to the walk. -/
inductive Stmt where
  | functionDecl (id : Option String) (isAsync : Bool) (params : List Param)
  | variableDecl (declarators : List Declarator)
  | classDecl (methods : List MethodDef)
  | exportNamed (payload : NamedPayload)
  | exportDefault (payload : DefaultPayload)
  | otherStmt
deriving Repr, DecidableEq

/-- The string pushed by the plain visitors:
`` `${asyncPart}${name}(${params})` ``. -/
def renderPlainSig (isAsync : Bool) (nm : String) (ps : List Param) : String :=
  (if isAsync then "async " else "") ++ nm ++ "(" ++ extractParams ps ++ ")"

/-- The string pushed by the `ExportNamedDeclaration` visitor:
`` `export ${asyncPart}${name}(${params})` ``. -/
def renderExportSig (isAsync : Bool) (nm : String) (ps : List Param) : String :=
  "export " ++ renderPlainSig isAsync nm ps

/-- The string pushed by the `ExportDefaultDeclaration` visitor:
`` `export default ${asyncPart}${name}(${params})` ``. -/
def renderDefaultSig (isAsync : Bool) (nm : String) (ps : List Param) : String :=
  "export default " ++ renderPlainSig isAsync nm ps

/-- tree.js lines 156-163: the `FunctionDeclaration` visitor. -/
def fnDeclVisit (includeAll : Bool) (id : Option String) (isAsync : Bool)
    (ps : List Param) : List String :=
  match id with
  | some nm => if includeAll then [renderPlainSig isAsync nm ps] else []
  | none => []

/-- tree.js lines 173-181: the `VariableDeclarator` visitor. -/
def declaratorVisit (includeAll : Bool) (d : Declarator) : List String :=
  if includeAll then
    match d.idName, d.init with
    | some nm, some (Expr.arrowFn a ps) => [renderPlainSig a nm ps]
    | some nm, some (Expr.functionExpr a ps) => [renderPlainSig a nm ps]
    | _, _ => []
  else []

/-- tree.js lines 164-172: the `MethodDefinition` visitor
(`node.key.name || node.key.value`; an absent key renders as the JS
`undefined` coercion). -/
def methodVisit (includeAll : Bool) (m : MethodDef) : List String :=
  if includeAll then
    [renderPlainSig m.valueAsync
      (m.keyName.getD (m.keyValue.getD "undefined")) m.params]
  else []

/-- tree.js lines 182-201: the `ExportNamedDeclaration` visitor (no mode
check in the source; `declarator.id.name` is read without a guard, so a
destructuring export renders the JS `undefined` coercion). -/
def exportNamedVisit : NamedPayload → List String
  | NamedPayload.functionDecl id a ps =>
    match id with
    | some nm => [renderExportSig a nm ps]
    | none => []
  | NamedPayload.variableDecl ds =>
    ds.flatMap fun d =>
      match d.init with
      | some (Expr.arrowFn a ps) => [renderExportSig a (d.idName.getD "undefined") ps]
      | some (Expr.functionExpr a ps) =>
        [renderExportSig a (d.idName.getD "undefined") ps]
      | _ => []
  | NamedPayload.classDecl _ => []
  | NamedPayload.noDecl => []

/-- tree.js lines 202-214: the `ExportDefaultDeclaration` visitor. -/
def exportDefaultVisit : DefaultPayload → List String
  | DefaultPayload.functionDecl id a ps => [renderDefaultSig a (id.getD "default") ps]
  | DefaultPayload.exprPayload (Expr.arrowFn a ps) => [renderDefaultSig a "function" ps]
  | DefaultPayload.exprPayload (Expr.functionExpr a ps) =>
    [renderDefaultSig a "function" ps]
  | DefaultPayload.exprPayload Expr.otherExpr => []

/-- Signatures contributed by the children of an `ExportNamedDeclaration`:
acorn-walk's `simple` walker runs the base walker over the wrapped
declaration first, so the plain visitors fire on it before the export
visitor. -/
def exportNamedChildren (includeAll : Bool) : NamedPayload → List String
  | NamedPayload.functionDecl id a ps => fnDeclVisit includeAll id a ps
  | NamedPayload.variableDecl ds => ds.flatMap (declaratorVisit includeAll)
  | NamedPayload.classDecl ms => ms.flatMap (methodVisit includeAll)
  | NamedPayload.noDecl => []

/-- Signatures contributed by the children of an `ExportDefaultDeclaration`. -/
def exportDefaultChildren (includeAll : Bool) : DefaultPayload → List String
  | DefaultPayload.functionDecl id a ps => fnDeclVisit includeAll id a ps
  | DefaultPayload.exprPayload _ => []

/-- Signatures emitted while walking one top-level statement, in acorn-walk
`simple` post-order (children before the node's own visitor). -/
def walkStmt (includeAll : Bool) : Stmt → List String
  | Stmt.functionDecl id a ps => fnDeclVisit includeAll id a ps
  | Stmt.variableDecl ds => ds.flatMap (declaratorVisit includeAll)
  | Stmt.classDecl ms => ms.flatMap (methodVisit includeAll)
  | Stmt.exportNamed p => exportNamedChildren includeAll p ++ exportNamedVisit p
  | Stmt.exportDefault p => exportDefaultChildren includeAll p ++ exportDefaultVisit p
  | Stmt.otherStmt => []

/-- The full structural strategy: walk the parsed program, collecting the
visitor pushes in traversal order (tree.js lines 155-217). -/
def walkSignatures (prog : List Stmt) (includeAll : Bool) : List String :=
  prog.flatMap (walkStmt includeAll)

/-! ## Fallback extraction (tree.js lines 251-320)

The fallback strategy runs JS regexes over the raw text.  Each regex is
re-implemented as a deterministic matcher on `List Char`; for these patterns
greedy maximal-munch matching coincides with JS backtracking semantics
because every optional or repeated piece is followed by a piece that cannot
start with a character the previous one consumes.  A global (`/g`) scan tries
each start position in order and resumes after the end of a match, exactly
like `RegExp.prototype.exec` in a loop. -/

/-- Match a literal string; returns the remaining input. -/
def litM : List Char → List Char → Option (List Char)
  | [], s => some s
  | _ :: _, [] => none
  | p :: ps, c :: cs => if p == c then litM ps cs else none

/-- `\s+`: at least one whitespace character, maximal munch. -/
def spaces1 : List Char → Option (List Char)
  | [] => none
  | c :: cs => if isSpaceChar c then some (cs.dropWhile isSpaceChar) else none

/-- `\s*`. -/
def dropSpaces (s : List Char) : List Char := s.dropWhile isSpaceChar

/-- `(\w+)`: captures a maximal nonempty run of word characters. -/
def word1 (s : List Char) : Option (List Char × List Char) :=
  let nm := s.takeWhile isWordChar
  if nm.isEmpty then none else some (nm, s.drop nm.length)

/-- `(?:async\s+)?`. -/
def tryOptAsync (s : List Char) : List Char :=
  match litM "async".data s with
  | some r1 =>
    match spaces1 r1 with
    | some r2 => r2
    | none => s
  | none => s

/-- `(?:default\s+)?`. -/
def tryOptDefault (s : List Char) : List Char :=
  match litM "default".data s with
  | some r1 =>
    match spaces1 r1 with
    | some r2 => r2
    | none => s
  | none => s

/-- `(?:export\s+(?:default\s+)?)?`. -/
def tryOptExportDefault (s : List Char) : List Char :=
  match litM "export".data s with
  | some r1 =>
    match spaces1 r1 with
    | some r2 => tryOptDefault r2
    | none => s
  | none => s

/-- `(?:const|let|var)`. -/
def tryDeclKeyword (s : List Char) : Option (List Char) :=
  match litM "const".data s with
  | some r => some r
  | none =>
    match litM "let".data s with
    | some r => some r
    | none => litM "var".data s

/-- `\(([^)]*)\)`: captures the text between parentheses. -/
def tryParenCapture (s : List Char) : Option (List Char × List Char) :=
  match s with
  | '(' :: r1 =>
    let body := r1.takeWhile (fun c => !(c == ')'))
    match r1.drop body.length with
    | ')' :: r2 => some (body, r2)
    | _ => none
  | _ => none

/-- A raw match: captured name, captured parameter text, and remaining input
(the full match text is recovered from the consumed length). -/
structure RawMatch where
  nameChars : List Char
  paramChars : List Char
  rest : List Char

/-- Matcher for line 256's
`(?:export\s+(?:default\s+)?)?(?:async\s+)?function\s+(\w+)\s*\(([^)]*)\)`. -/
def tryFunctionAll (s : List Char) : Option RawMatch :=
  let r0 := tryOptExportDefault s
  let r1 := tryOptAsync r0
  match litM "function".data r1 with
  | none => none
  | some r2 =>
    match spaces1 r2 with
    | none => none
    | some r3 =>
      match word1 r3 with
      | none => none
      | some (nm, r4) =>
        match tryParenCapture (dropSpaces r4) with
        | some (ps, r5) => some ⟨nm, ps, r5⟩
        | none => none

/-- Matcher for line 267's
`(?:export\s+(?:default\s+)?)?(?:const|let|var)\s+(\w+)\s*=\s*(?:async\s+)?\(([^)]*)\)\s*=>`. -/
def tryArrowAll (s : List Char) : Option RawMatch :=
  let r0 := tryOptExportDefault s
  match tryDeclKeyword r0 with
  | none => none
  | some r1 =>
    match spaces1 r1 with
    | none => none
    | some r2 =>
      match word1 r2 with
      | none => none
      | some (nm, r3) =>
        match dropSpaces r3 with
        | '=' :: r4 =>
          match tryParenCapture (tryOptAsync (dropSpaces r4)) with
          | some (ps, r5) =>
            match dropSpaces r5 with
            | '=' :: '>' :: r6 => some ⟨nm, ps, r6⟩
            | _ => none
          | none => none
        | _ => none

/-- Matcher for line 276's
`export\s+(?:default\s+)?(?:async\s+)?function\s+(\w+)\s*\(([^)]*)\)`. -/
def tryFunctionExported (s : List Char) : Option RawMatch :=
  match litM "export".data s with
  | none => none
  | some r0 =>
    match spaces1 r0 with
    | none => none
    | some r1 =>
      let r2 := tryOptDefault r1
      let r3 := tryOptAsync r2
      match litM "function".data r3 with
      | none => none
      | some r4 =>
        match spaces1 r4 with
        | none => none
        | some r5 =>
          match word1 r5 with
          | none => none
          | some (nm, r6) =>
            match tryParenCapture (dropSpaces r6) with
            | some (ps, r7) => some ⟨nm, ps, r7⟩
            | none => none

/-- Matcher for line 289's
`export\s+(?:default\s+)?(?:const|let|var)\s+(\w+)\s*=\s*(async\s+)?\(([^)]*)\)\s*=>`;
also reports whether the capturing `(async\s+)?` group matched. -/
def tryArrowExported (s : List Char) : Option (RawMatch × Bool) :=
  match litM "export".data s with
  | none => none
  | some r0 =>
    match spaces1 r0 with
    | none => none
    | some r1 =>
      let r2 := tryOptDefault r1
      match tryDeclKeyword r2 with
      | none => none
      | some r3 =>
        match spaces1 r3 with
        | none => none
        | some r4 =>
          match word1 r4 with
          | none => none
          | some (nm, r5) =>
            match dropSpaces r5 with
            | '=' :: r6 =>
              let r7 := dropSpaces r6
              let r8 := tryOptAsync r7
              let asyncMatched := decide (r8.length ≠ r7.length)
              match tryParenCapture r8 with
              | some (ps, r9) =>
                match dropSpaces r9 with
                | '=' :: '>' :: r10 => some (⟨nm, ps, r10⟩, asyncMatched)
                | _ => none
              | none => none
            | _ => none

/-- Matcher for line 299's `export\s*\{\s*([^\x7d]+)\s*\}`.  The capture is
the brace body with its leading whitespace removed by the greedy `\s*`
(backtracking leaves the final whitespace character when the body is all
whitespace). -/
def tryExportListMatch (s : List Char) : Option (List Char × List Char) :=
  match litM "export".data s with
  | none => none
  | some r0 =>
    match dropSpaces r0 with
    | '\x7b' :: r1 =>
      let body := r1.takeWhile (fun c => !(c == '\x7d'))
      match r1.drop body.length with
      | '\x7d' :: r2 =>
        if body.isEmpty then none
        else
          let cap := body.dropWhile isSpaceChar
          if cap.isEmpty then some ([body.getLastD ' '], r2) else some (cap, r2)
      | _ => none
    | _ => none

/-- Full-match text of a raw match found at suffix `s` of the scanned text. -/
def fullMatchOf (s : List Char) (m : RawMatch) : List Char :=
  s.take (s.length - m.rest.length)

/-- The string pushed per match by the all-declarations fallback branches
(lines 262-263 and 271-272): `` `${exportPart}${name}(${params})` `` where the
export part is present iff the full match text contains `export`. -/
def renderAllMatch (hasExport : Bool) (nm raw : String) : String :=
  (if hasExport then "export " else "") ++ nm ++ "(" ++ raw ++ ")"

/-- The string pushed per match by the exported-only function branch
(lines 281-285). -/
def renderExportedMatch (isDefault isAsync : Bool) (nm raw : String) : String :=
  (if isDefault then "export default " else "export ") ++
    (if isAsync then "async " else "") ++ nm ++ "(" ++ raw ++ ")"

/-- A global `/g` scan: try a matcher at every start position, resuming after
the end of each match (like `RegExp.prototype.exec` in a loop), rendering each
match from the suffix at which it was found.  Fuel bounds the number of scan
steps; `scanPushes` supplies the text length, which suffices because every
step either consumes a nonempty match or advances one character. -/
def scanPushesFuel {α : Type} (f : List Char → Option α) (restOf : α → List Char)
    (render : List Char → α → String) : Nat → List Char → List String
  | 0, _ => []
  | _, [] => []
  | fuel + 1, c :: rest =>
    match f (c :: rest) with
    | some m => render (c :: rest) m :: scanPushesFuel f restOf render fuel (restOf m)
    | none => scanPushesFuel f restOf render fuel rest

/-- Global scan collecting rendered pushes. -/
def scanPushes {α : Type} (f : List Char → Option α) (restOf : α → List Char)
    (render : List Char → α → String) (s : List Char) : List String :=
  scanPushesFuel f restOf render s.length s

/-- Global scan collecting raw payloads (used for the `export { ... }` lists,
whose matches are post-processed rather than rendered directly). -/
def scanCollectFuel {α : Type} (f : List Char → Option α) (restOf : α → List Char) :
    Nat → List Char → List α
  | 0, _ => []
  | _, [] => []
  | fuel + 1, c :: rest =>
    match f (c :: rest) with
    | some m => m :: scanCollectFuel f restOf fuel (restOf m)
    | none => scanCollectFuel f restOf fuel rest

/-- Global payload scan over a whole text. -/
def scanCollect {α : Type} (f : List Char → Option α) (restOf : α → List Char)
    (s : List Char) : List α :=
  scanCollectFuel f restOf s.length s

/-- `\s+as\s+` anchored at the start of the input (line 302's separator). -/
def matchAsSep (s : List Char) : Option (List Char) :=
  match spaces1 s with
  | none => none
  | some r1 =>
    match litM "as".data r1 with
    | none => none
    | some r2 => spaces1 r2

/-- JS `name.split(/\s+as\s+/)[0]`: the text before the earliest `\s+as\s+`. -/
def takeBeforeAs : List Char → List Char
  | [] => []
  | c :: rest =>
    if (matchAsSep (c :: rest)).isSome then []
    else c :: takeBeforeAs rest

/-- Line 302: split the brace body on commas and normalize each entry with
`trim`, `split(/\s+as\s+/)[0]`, `trim`. -/
def parseExportNames (cap : List Char) : List (List Char) :=
  (splitChar ',' cap).map fun seg => trimChars (takeBeforeAs (trimChars seg))

/-- One position of line 306's constructed regex
`(?:async\s+)?function\s+NAME\s*\(([^)]*)\)|(?:const|let|var)\s+NAME\s*=\s*(?:async\s+)?\(([^)]*)\)\s*=>`
(the interpolated name is matched literally; the names this program splices
are produced by `parseExportNames` and contain no regex metacharacters in the
modelled scenarios).  Returns the captured parameter text and the remainder. -/
def tryFuncDefAt (nm : List Char) (s : List Char) : Option (List Char × List Char) :=
  match
    (match litM "function".data (tryOptAsync s) with
     | none => none
     | some r1 =>
       match spaces1 r1 with
       | none => none
       | some r2 =>
         match litM nm r2 with
         | none => none
         | some r3 => tryParenCapture (dropSpaces r3))
  with
  | some res => some res
  | none =>
    match tryDeclKeyword s with
    | none => none
    | some r1 =>
      match spaces1 r1 with
      | none => none
      | some r2 =>
        match litM nm r2 with
        | none => none
        | some r3 =>
          match dropSpaces r3 with
          | '=' :: r4 =>
            match tryParenCapture (tryOptAsync (dropSpaces r4)) with
            | some (ps, r5) =>
              match dropSpaces r5 with
              | '=' :: '>' :: r6 => some (ps, r6)
              | _ => none
            | none => none
          | _ => none

/-- Line 308's single `exec` (the loop `break`s after the first match): the
first position of the text where the constructed definition regex matches,
returning the captured parameters and the full match text. -/
def findFuncDefFuel (nm : List Char) : Nat → List Char → Option (List Char × List Char)
  | 0, _ => none
  | _, [] => none
  | fuel + 1, c :: rest =>
    match tryFuncDefAt nm (c :: rest) with
    | some (ps, r) =>
      some (ps, (c :: rest).take ((c :: rest).length - r.length))
    | none => findFuncDefFuel nm fuel rest

/-- First definition match for an exported name, over the whole text. -/
def findFuncDef (nm : List Char) (content : List Char) : Option (List Char × List Char) :=
  findFuncDefFuel nm content.length content

/-- Lines 299-316: resolve `export { a, b as c }` lists against the text,
pushing `export ${asyncPart}${name}(${params})` for each name whose
definition is found (unmatched names are silently dropped). -/
def exportListPushes (content : List Char) : List String :=
  (scanCollect tryExportListMatch Prod.snd content).flatMap fun capAndRest =>
    (parseExportNames capAndRest.1).filterMap fun nm =>
      (findFuncDef nm content).map fun psAndFull =>
        "export " ++
          (if isInfixCharList "async".data psAndFull.2 then "async " else "") ++
          String.mk nm ++ "(" ++ String.mk psAndFull.1 ++ ")"

/-- Render for the all-declarations scans (lines 259-264 and 268-273):
`fullMatch.includes('export')` decides the `export ` part. -/
def renderAllFromSuffix (s : List Char) (m : RawMatch) : String :=
  renderAllMatch (isInfixCharList "export".data (fullMatchOf s m))
    (String.mk m.nameChars) (String.mk m.paramChars)

/-- Render for the exported-only function scan (lines 279-286):
`fullMatch.includes('default')` and `fullMatch.includes('async')` decide the
markers. -/
def renderExportedFnFromSuffix (s : List Char) (m : RawMatch) : String :=
  renderExportedMatch (isInfixCharList "default".data (fullMatchOf s m))
    (isInfixCharList "async".data (fullMatchOf s m))
    (String.mk m.nameChars) (String.mk m.paramChars)

/-- Render for the exported-only arrow scan (lines 290-296): the async marker
comes from the capturing `(async\s+)?` group, the default marker from
`fullMatch.includes('default')`. -/
def renderExportedArrowFromSuffix (s : List Char) (m : RawMatch × Bool) : String :=
  renderExportedMatch (isInfixCharList "default".data (fullMatchOf s m.1)) m.2
    (String.mk m.1.nameChars) (String.mk m.1.paramChars)

/-- tree.js lines 251-320: `extractMethodsFromRawContent`, the textual
fallback strategy. -/
def extractMethodsFromRawContent (fileContent : String)
    (includeAllMethods : Bool) : List String :=
  let content := fileContent.data
  if includeAllMethods then
    scanPushes tryFunctionAll RawMatch.rest renderAllFromSuffix content ++
      scanPushes tryArrowAll RawMatch.rest renderAllFromSuffix content
  else
    scanPushes tryFunctionExported RawMatch.rest renderExportedFnFromSuffix content ++
      scanPushes tryArrowExported (fun m => m.1.rest)
        renderExportedArrowFromSuffix content ++
      exportListPushes content

/-! ## Signature extraction entry point (tree.js lines 140-225) -/

/-- tree.js lines 140-225: `extractMethodSignatures`.  `readResult` models
`fs.readFileSync` (`.error` for a thrown read), `parseFn` models the acorn
`parse` call on the file content.  The outer `try`/`catch` returns `[]` on a
read failure; the inner one falls back to `extractMethodsFromRawContent` when
parsing throws.  The fallback and the walk are total functions here, matching
the fact that any exception they raised in JS would be caught by the
enclosing handlers anyway. -/
def extractMethodSignatures (readResult : Except String String)
    (parseFn : String → Except String (List Stmt))
    (includeAllMethods : Bool) : Except String (List String) :=
  match readResult with
  | Except.error _ => Except.ok []
  | Except.ok fileContent =>
    match parseFn fileContent with
    | Except.ok ast => Except.ok (walkSignatures ast includeAllMethods)
    | Except.error _ =>
      Except.ok (extractMethodsFromRawContent fileContent includeAllMethods)

/-! ## Filesystem model and traversal (tree.js lines 322-446) -/

/-- An in-memory directory entry.  `statOk` models whether `fs.statSync`
succeeds on the entry (the source calls it unguarded inside the `filter`
callbacks); `content` is `some text` when `fs.readFileSync` succeeds and
`none` when it throws. -/
inductive Entry where
  | file (name : String) (statOk : Bool) (content : Option String)
  | dir (name : String) (statOk : Bool) (children : List Entry)
deriving Repr

/-- Entry name. -/
def Entry.name : Entry → String
  | Entry.file n _ _ => n
  | Entry.dir n _ _ => n

/-- `fs.statSync(itemPath)` succeeding. -/
def Entry.statOk : Entry → Bool
  | Entry.file _ ok _ => ok
  | Entry.dir _ ok _ => ok

/-- `stats.isDirectory()`. -/
def Entry.isDirectory : Entry → Bool
  | Entry.file _ _ _ => false
  | Entry.dir _ _ _ => true

/-- Children of a directory entry (empty for files). -/
def Entry.childrenOf : Entry → List Entry
  | Entry.file _ _ _ => []
  | Entry.dir _ _ ch => ch

/-- File content (none for directories and unreadable files). -/
def Entry.contentOf : Entry → Option String
  | Entry.file _ _ c => c
  | Entry.dir _ _ _ => none

/-- `path.join(relativePath, item)` for the relative paths this program
builds. -/
def joinRel (rel nm : String) : String :=
  if rel == "" then nm else rel ++ "/" ++ nm

/-- `path.extname` on a base name: the suffix from the last `.`, empty when
there is no dot or the only dot is the leading character. -/
def extname (nm : String) : String :=
  let cs := nm.data
  let idxs := (List.range cs.length).filter fun i => cs.getD i ' ' == '.'
  match idxs.getLast? with
  | some i => if i == 0 then "" else String.mk (cs.drop i)
  | none => ""

/-- The survival predicate of the `files` filter (lines 375-382), evaluated
after the unguarded `statSync`. -/
def fileKeep (cfg : Config) (e : Entry) : Bool :=
  !e.isDirectory && !(startsWithB e.name ".") &&
    !(shouldExcludeFile cfg.excludeFiles e.name)

/-- The survival predicate of the `dirs` filter (lines 384-392). -/
def dirKeep (cfg : Config) (rel : String) (e : Entry) : Bool :=
  e.isDirectory && !(startsWithB e.name ".") &&
    !(shouldExcludePath cfg.excludePaths (joinRel rel e.name))

/-- A JS `Array.prototype.filter` whose callback begins with an unguarded
`fs.statSync`: the first entry whose stat fails throws out of the filter. -/
def filterStatM (p : Entry → Bool) : List Entry → Except Unit (List Entry)
  | [] => Except.ok []
  | e :: es =>
    if e.statOk then
      match filterStatM p es with
      | Except.ok r => Except.ok (if p e then e :: r else r)
      | Except.error u => Except.error u
    else Except.error ()

/-- Lines 375-392: build the two filtered partitions (files first, then
directories, as in the source). -/
def partitionItemsM (cfg : Config) (rel : String) (entries : List Entry) :
    Except Unit (List Entry × List Entry) :=
  match filterStatM (fileKeep cfg) entries with
  | Except.error u => Except.error u
  | Except.ok files =>
    match filterStatM (dirKeep cfg rel) entries with
    | Except.error u => Except.error u
    | Except.ok dirs => Except.ok (dirs, files)

/-- Insertion step of the default `Array.prototype.sort` model. -/
def insertByName (e : Entry) : List Entry → List Entry
  | [] => [e]
  | x :: xs => if strLeB e.name x.name then e :: x :: xs else x :: insertByName e xs

/-- Default `Array.prototype.sort()` (code-unit lexicographic, and stable —
directory listings contain no duplicate names). -/
def sortByName : List Entry → List Entry
  | [] => []
  | x :: xs => insertByName x (sortByName xs)

/-- Line 394: `[...dirs, ...files]` with each partition sorted. -/
def orderedLevelItems (dirs files : List Entry) : List Entry :=
  sortByName dirs ++ sortByName files

/-- The `${prefix}${branch}${connector} ${item}` part of line 408. -/
def fileBaseLine (pfx : String) (isLastItem : Bool) (nm : String) : String :=
  pfx ++ (if isLastItem then "└" else "├") ++ "──" ++ " " ++ nm

/-- The file line through its line count (lines 418-422). -/
def fileCountLine (pfx : String) (isLastItem : Bool) (nm : String) (c : String) :
    String :=
  fileBaseLine pfx isLastItem nm ++ " (" ++ toString (jsLineCount c) ++ " lines)\n"

/-- Lines 431-435: one rendered method line per signature, using the single
horizontal connector. -/
def renderMethodLines (methodPfx : String) : List String → String
  | [] => ""
  | [m] => methodPfx ++ "└" ++ "─" ++ " " ++ m ++ "\n"
  | m :: rest@(_ :: _) =>
    methodPfx ++ "├" ++ "─" ++ " " ++ m ++ "\n" ++ renderMethodLines methodPfx rest

/-- The signature list attached beneath a file: extraction with the file's
(successfully read) content.  `extractMethodSignatures` never returns an
error (its `catch` handlers return values), so the error arm is vacuous. -/
def extractedSignatures (c : String) (parseFn : String → Except String (List Stmt))
    (showAllMethods : Bool) : List String :=
  match extractMethodSignatures (Except.ok c) parseFn showAllMethods with
  | Except.ok l => l
  | Except.error _ => []

/-- Lines 416-442: the per-file `else` branch of the item loop.  An
unreadable content (`none`) is the thrown `readFileSync` caught at line 439;
a readable file shows its line count and, when `showMethods` is set and the
extension passes both the configured inclusion test and the hard-coded
`.js`/`.mjs`/`.cjs` test, its extracted signatures. -/
def renderFileEntry (cfg : Config) (showMethods showAllMethods : Bool)
    (parseFn : String → Except String (List Stmt)) (pfx : String)
    (isLastItem : Bool) (nm : String) (content : Option String) : String :=
  match content with
  | none => fileBaseLine pfx isLastItem nm ++ " (error reading file)\n"
  | some c =>
    let ext := extname nm
    if showMethods && cfg.includeExtensions.contains ext &&
        (ext == ".js" || ext == ".mjs" || ext == ".cjs") then
      let methods := extractedSignatures c parseFn showAllMethods
      if methods.length > 0 then
        fileCountLine pfx isLastItem nm c ++
          renderMethodLines (pfx ++ (if isLastItem then "   " else "│  ")) methods
      else fileCountLine pfx isLastItem nm c
    else fileCountLine pfx isLastItem nm c

/-- Line 362's depth cutoff `level > maxDepth` (`none` is `Infinity`). -/
def levelExceeds (maxDepth : Option Nat) (level : Nat) : Bool :=
  match maxDepth with
  | none => false
  | some m => level > m

/-- Lines 397-443: the `allItems.forEach` loop.  `recurse` is the recursive
`generateTree` call for subdirectories; a thrown stat error (modelled by
`Except.error` from the recursion) aborts the whole loop, discarding all
accumulated output, exactly as a JS exception unwinds `forEach`. -/
def processItems (recurse : List Entry → Nat → String → String → Except Unit String)
    (cfg : Config) (showMethods showAllMethods : Bool)
    (parseFn : String → Except String (List Stmt)) (level : Nat)
    (rel pfx : String) (total : Nat) : Nat → List Entry → Except Unit String
  | _, [] => Except.ok ""
  | idx, e :: rest =>
    let isLastItem := idx == total - 1
    let headOut :=
      if e.isDirectory then
        match recurse e.childrenOf (level + 1) (joinRel rel e.name)
            (pfx ++ (if isLastItem then "   " else "│  ")) with
        | Except.ok sub =>
          Except.ok (fileBaseLine pfx isLastItem e.name ++ "/\n" ++ sub)
        | Except.error u => Except.error u
      else
        Except.ok (renderFileEntry cfg showMethods showAllMethods parseFn pfx
          isLastItem e.name e.contentOf)
    match headOut with
    | Except.error u => Except.error u
    | Except.ok s =>
      match processItems recurse cfg showMethods showAllMethods parseFn level rel
          pfx total (idx + 1) rest with
      | Except.error u => Except.error u
      | Except.ok restOut => Except.ok (s ++ restOut)

/-- Lines 332-446: `generateTree`, with the directory listing supplied as an
`Entry` list and recursion bounded by fuel (one unit per directory level, so
any fuel exceeding the tree height is sufficient; exhaustion returns the same
empty string as the depth cutoff). -/
def generateTreeFuel (cfg : Config) (maxDepth : Option Nat)
    (showMethods showAllMethods : Bool)
    (parseFn : String → Except String (List Stmt)) :
    Nat → List Entry → Nat → String → String → Except Unit String
  | 0, _, _, _, _ => Except.ok ""
  | fuel + 1, entries, level, rel, pfx =>
    if levelExceeds maxDepth level then Except.ok ""
    else if level > 0 && shouldExcludePath cfg.excludePaths rel then Except.ok ""
    else
      match partitionItemsM cfg rel entries with
      | Except.error u => Except.error u
      | Except.ok (dirs, files) =>
        let allItems := orderedLevelItems dirs files
        processItems
          (fun es lv r p =>
            generateTreeFuel cfg maxDepth showMethods showAllMethods parseFn fuel
              es lv r p)
          cfg showMethods showAllMethods parseFn level rel pfx
          allItems.length 0 allItems

/-- Deep stat-health of a filesystem, to the given depth: every entry (and,
for directories, every entry below) has a succeeding `statSync`. -/
def allStatsOkFuel : Nat → List Entry → Bool
  | 0, _ => true
  | fuel + 1, l =>
    l.all fun e =>
      match e with
      | Entry.file _ ok _ => ok
      | Entry.dir _ ok ch => ok && allStatsOkFuel fuel ch

/-- Adjacent-pairs sortedness by entry name (the ordering guarantee of the
`sort()` calls). -/
def sortedByNameB : List Entry → Bool
  | [] => true
  | [_] => true
  | a :: b :: t => strLeB a.name b.name && sortedByNameB (b :: t)

/-- Parse oracle for text acorn rejects (e.g. non-JavaScript content). -/
def parseAlwaysFails : String → Except String (List Stmt) :=
  fun _ => Except.error "SyntaxError"

/-- Parse oracle for the one-line program `const f = (a) => a`: a single
variable declaration whose initializer is a non-async arrow function with one
identifier parameter. -/
def parseOracleArrow : String → Except String (List Stmt) :=
  fun s =>
    if s == "const f = (a) => a" then
      Except.ok [Stmt.variableDecl
        [⟨some "f", some (Expr.arrowFn false [Param.identifier "a"])⟩]]
    else Except.error "SyntaxError"

/-- A configuration whose included-extension set is empty (every default
extension removed), for extension-independence tests. -/
def configNoExtensions : Config :=
  { excludePaths := [], excludeFiles := ["package-lock.json"], includeExtensions := [] }

/-! ## Helper lemmas -/

/-- Membership bridge for `List.contains` on strings. -/
theorem string_list_contains_iff (l : List String) (a : String) :
    l.contains a = true ↔ a ∈ l := by
  simp [List.contains, List.elem_iff]

/-- A char list of word characters followed by `(` can never coincide with a
list that carries a space (preceded only by word characters) at position `k`:
the position of `(` on the left clashes with the letters/space on the right.
This is the combinatorial core of the async/export/default marker
inequalities. -/
theorem word_paren_clash (n X w Y : List Char) (k : Nat)
    (hn : ∀ c ∈ n, isWordChar c = true)
    (hk : k < w.length)
    (hsp : w.getD k '?' = ' ')
    (hw : ∀ i, i < k → isWordChar (w.getD i '?') = true) :
    n ++ '(' :: X ≠ w ++ Y := by
  intro h
  rcases Nat.lt_trichotomy n.length k with hc | hc | hc
  · have h1 : (n ++ '(' :: X).getD n.length '?' = '(' := by
      rw [List.getD_append_right n ('(' :: X) '?' n.length (Nat.le_refl _)]
      simp
    have h2 : (w ++ Y).getD n.length '?' = w.getD n.length '?' :=
      List.getD_append w Y '?' n.length (Nat.lt_trans hc hk)
    have h3 : isWordChar (w.getD n.length '?') = true := hw n.length hc
    rw [h] at h1
    rw [h1] at h2
    rw [← h2] at h3
    simp [isWordChar] at h3
  · have h1 : (n ++ '(' :: X).getD k '?' = '(' := by
      rw [← hc]
      rw [List.getD_append_right n ('(' :: X) '?' n.length (Nat.le_refl _)]
      simp
    have h2 : (w ++ Y).getD k '?' = ' ' := by
      rw [List.getD_append w Y '?' k hk]
      exact hsp
    rw [h] at h1
    rw [h1] at h2
    simp at h2
  · have h1 : (n ++ '(' :: X).getD k '?' = n.getD k '?' :=
      List.getD_append n ('(' :: X) '?' k hc
    have h2 : (w ++ Y).getD k '?' = ' ' := by
      rw [List.getD_append w Y '?' k hk]
      exact hsp
    have h3 : isWordChar (n.getD k '?') = true := by
      have := List.getD_eq_getElem n '?' hc
      rw [this]
      exact hn _ (List.getElem_mem hc)
    rw [h] at h1
    rw [h2] at h1
    rw [← h1] at h3
    simp [isWordChar] at h3

/-- `charsLe` is total. -/
theorem charsLe_total (a : List Char) : ∀ b, charsLe a b = true ∨ charsLe b a = true := by
  induction a with
  | nil => intro b; left; rfl
  | cons x xs ih =>
    intro b
    cases b with
    | nil => right; rfl
    | cons y ys =>
      rcases Nat.lt_trichotomy x.toNat y.toNat with h | h | h
      · left; simp [charsLe, h]
      · have h1 : ¬ x.toNat < y.toNat := by omega
        have h2 : ¬ y.toNat < x.toNat := by omega
        simpa [charsLe, h1, h2] using ih ys
      · right; simp [charsLe, h]

/-- The JS default comparison is total. -/
theorem strLeB_total (a b : String) : strLeB a b = true ∨ strLeB b a = true :=
  charsLe_total a.data b.data

/-- Membership through `insertByName`. -/
theorem mem_insertByName {x e : Entry} : ∀ {l : List Entry},
    x ∈ insertByName e l ↔ x = e ∨ x ∈ l := by
  intro l
  induction l with
  | nil => simp [insertByName]
  | cons h t ih =>
    by_cases hle : strLeB e.name h.name
    · simp [insertByName, hle]
    · simp only [insertByName, hle, if_false, Bool.false_eq_true, List.mem_cons, ih]
      tauto

/-- `sortByName` preserves membership. -/
theorem mem_sortByName {x : Entry} : ∀ {l : List Entry},
    x ∈ sortByName l ↔ x ∈ l := by
  intro l
  induction l with
  | nil => simp [sortByName]
  | cons h t ih =>
    simp [sortByName, mem_insertByName, ih]

/-- Inserting into a sorted list keeps it sorted. -/
theorem sortedByNameB_insert {e : Entry} : ∀ {l : List Entry},
    sortedByNameB l = true → sortedByNameB (insertByName e l) = true := by
  intro l
  induction l with
  | nil => intro _; rfl
  | cons x xs ih =>
    intro hs
    by_cases hle : strLeB e.name x.name
    · simp only [insertByName, hle, if_true]
      simp only [sortedByNameB, hle, Bool.true_and]
      exact hs
    · simp only [insertByName, hle, if_false, Bool.false_eq_true]
      have hxe : strLeB x.name e.name = true := by
        rcases strLeB_total e.name x.name with h | h
        · exact absurd h hle
        · exact h
      cases xs with
      | nil =>
        simp [sortedByNameB, insertByName, hxe]
      | cons y ys =>
        have hxs : sortedByNameB (y :: ys) = true := by
          simp only [sortedByNameB, Bool.and_eq_true] at hs
          exact hs.2
        have hxy : strLeB x.name y.name = true := by
          simp only [sortedByNameB, Bool.and_eq_true] at hs
          exact hs.1
        have htail := ih hxs
        by_cases hey : strLeB e.name y.name
        · simp only [insertByName, hey, if_true] at htail ⊢
          simp [sortedByNameB, hxe, htail, hxs, hey]
        · simp only [insertByName, hey, if_false, Bool.false_eq_true] at htail ⊢
          simp [sortedByNameB, hxy, htail]

/-- The name sort produces a sorted list. -/
theorem sortedByNameB_sort : ∀ l : List Entry, sortedByNameB (sortByName l) = true := by
  intro l
  induction l with
  | nil => rfl
  | cons x xs ih => exact sortedByNameB_insert ih

/-- A successful stat-filter is an ordinary filter. -/
theorem filterStatM_ok_eq {p : Entry → Bool} : ∀ {l r : List Entry},
    filterStatM p l = Except.ok r → r = l.filter p := by
  intro l
  induction l with
  | nil =>
    intro r h
    simpa [filterStatM] using
      (by simpa [filterStatM] using h.symm : ([] : List Entry) = r).symm
  | cons e es ih =>
    intro r h
    by_cases hs : e.statOk
    · simp only [filterStatM, hs, if_true] at h
      cases hrest : filterStatM p es with
      | ok r2 =>
        rw [hrest] at h
        have := ih hrest
        cases h
        by_cases hp : p e
        · simp [List.filter, hp, this]
        · simp [List.filter, hp, this]
      | error u =>
        rw [hrest] at h
        cases h
    · simp [filterStatM, hs] at h

/-- With all stats healthy the stat-filter succeeds and filters. -/
theorem filterStatM_ok_of_allOk {p : Entry → Bool} : ∀ {l : List Entry},
    (∀ e ∈ l, e.statOk = true) → filterStatM p l = Except.ok (l.filter p) := by
  intro l
  induction l with
  | nil => intro _; rfl
  | cons e es ih =>
    intro h
    have he : e.statOk = true := h e (by simp)
    have hrest := ih fun x hx => h x (by simp [hx])
    simp only [filterStatM, he, if_true, hrest]
    by_cases hp : p e
    · simp [List.filter, hp]
    · simp [List.filter, hp]

/-- Any entry with a failing stat makes the stat-filter throw. -/
theorem filterStatM_error {p : Entry → Bool} {e : Entry} : ∀ {l : List Entry},
    e ∈ l → e.statOk = false → filterStatM p l = Except.error () := by
  intro l
  induction l with
  | nil => intro h; simp at h
  | cons x xs ih =>
    intro hmem hfail
    rcases List.mem_cons.mp hmem with h | h
    · subst h
      simp [filterStatM, hfail]
    · by_cases hs : x.statOk
      · simp [filterStatM, hs, ih h hfail]
      · simp [filterStatM, hs]

/-- Stat-health of an empty listing, at any fuel. -/
theorem allStatsOkFuel_nil (fuel : Nat) : allStatsOkFuel fuel [] = true := by
  cases fuel <;> rfl

/-- Stat-health of a member of a healthy listing. -/
theorem allStatsOkFuel_mem {fuel : Nat} {l : List Entry} {e : Entry}
    (h : allStatsOkFuel (fuel + 1) l = true) (hm : e ∈ l) :
    e.statOk = true ∧ allStatsOkFuel fuel e.childrenOf = true := by
  have he := List.all_eq_true.mp h e hm
  cases e with
  | file nm ok c =>
    refine ⟨by simpa using he, ?_⟩
    simp only [Entry.childrenOf]
    exact allStatsOkFuel_nil fuel
  | dir nm ok ch =>
    simp only [Bool.and_eq_true] at he
    exact ⟨he.1, he.2⟩

/-- The item loop completes whenever every recursive directory call does. -/
theorem processItems_ok
    (recurse : List Entry → Nat → String → String → Except Unit String)
    (cfg : Config) (showM showA : Bool)
    (parseFn : String → Except String (List Stmt)) (level : Nat)
    (rel pfx : String) (total : Nat) :
    ∀ (items : List Entry) (idx : Nat),
      (∀ e ∈ items, e.isDirectory = true →
        ∀ lv r p, ∃ s, recurse e.childrenOf lv r p = Except.ok s) →
      ∃ s, processItems recurse cfg showM showA parseFn level rel pfx total idx items
        = Except.ok s := by
  intro items
  induction items with
  | nil => intro idx _; exact ⟨"", rfl⟩
  | cons e rest ih =>
    intro idx hdirs
    have hrest := ih (idx + 1) fun x hx => hdirs x (by simp [hx])
    obtain ⟨s2, hs2⟩ := hrest
    by_cases hdir : e.isDirectory
    · obtain ⟨sub, hsub⟩ := hdirs e (by simp) hdir (level + 1) (joinRel rel e.name)
        (pfx ++ (if idx == total - 1 then "   " else "│  "))
      simp only [processItems, hdir, if_true, hsub, hs2]
      exact ⟨_, rfl⟩
    · simp only [processItems, hdir, Bool.false_eq_true, if_false, hs2]
      exact ⟨_, rfl⟩

/-- On a filesystem whose stats are all healthy (to the traversal's fuel
depth), `generateTreeFuel` never throws: every per-file failure is a content
failure, contained by the per-file `try`/`catch`. -/
theorem generateTreeFuel_ok :
    ∀ (fuel : Nat) (cfg : Config) (maxD : Option Nat) (showM showA : Bool)
      (parseFn : String → Except String (List Stmt))
      (entries : List Entry) (level : Nat) (rel pfx : String),
      allStatsOkFuel fuel entries = true →
      ∃ s, generateTreeFuel cfg maxD showM showA parseFn fuel entries level rel pfx
        = Except.ok s := by
  intro fuel
  induction fuel with
  | zero => intro cfg maxD showM showA parseFn entries level rel pfx _; exact ⟨"", rfl⟩
  | succ fuel ih =>
    intro cfg maxD showM showA parseFn entries level rel pfx h
    by_cases h1 : levelExceeds maxD level
    · exact ⟨"", by simp [generateTreeFuel, h1]⟩
    · by_cases h2 : (decide (level > 0) && shouldExcludePath cfg.excludePaths rel) = true
      · exact ⟨"", by simp [generateTreeFuel, h1, h2]⟩
      · have hstats : ∀ e ∈ entries, e.statOk = true :=
          fun e he => (allStatsOkFuel_mem h he).1
        have hpart : partitionItemsM cfg rel entries
            = Except.ok (entries.filter (dirKeep cfg rel),
                entries.filter (fileKeep cfg)) := by
          rw [partitionItemsM, filterStatM_ok_of_allOk hstats,
            filterStatM_ok_of_allOk hstats]
        have hrec : ∀ e ∈ orderedLevelItems (entries.filter (dirKeep cfg rel))
            (entries.filter (fileKeep cfg)), e.isDirectory = true →
            ∀ lv r p, ∃ s,
              generateTreeFuel cfg maxD showM showA parseFn fuel e.childrenOf lv r p
                = Except.ok s := by
          intro e he _ lv r p
          have hmem : e ∈ entries := by
            rcases List.mem_append.mp he with hm | hm
            · exact List.mem_of_mem_filter (mem_sortByName.mp hm)
            · exact List.mem_of_mem_filter (mem_sortByName.mp hm)
          exact ih cfg maxD showM showA parseFn e.childrenOf lv r p
            (allStatsOkFuel_mem h hmem).2
        obtain ⟨s, hs⟩ := processItems_ok
          (fun es lv r p =>
            generateTreeFuel cfg maxD showM showA parseFn fuel es lv r p)
          cfg showM showA parseFn level rel pfx
          (orderedLevelItems (entries.filter (dirKeep cfg rel))
            (entries.filter (fileKeep cfg))).length
          (orderedLevelItems (entries.filter (dirKeep cfg rel))
            (entries.filter (fileKeep cfg))) 0 hrec
        refine ⟨s, ?_⟩
        simp only [generateTreeFuel, h1, h2, if_false, hpart, Bool.false_eq_true]
        exact hs

/-- A file whose extension fails the method gate shows only its count line. -/
theorem renderFileEntry_gate_false {cfg : Config} {showA : Bool}
    {parseFn : String → Except String (List Stmt)} {pfx : String} {isLast : Bool}
    {nm c : String}
    (h : (cfg.includeExtensions.contains (extname nm) &&
      (extname nm == ".js" || extname nm == ".mjs" || extname nm == ".cjs")) = false) :
    renderFileEntry cfg true showA parseFn pfx isLast nm (some c)
      = fileCountLine pfx isLast nm c := by
  simp only [renderFileEntry, Bool.true_and]
  rw [h]
  simp

/-- A file passing the gate but with no extracted signatures shows only its
count line. -/
theorem renderFileEntry_gate_true_empty {cfg : Config} {showA : Bool}
    {parseFn : String → Except String (List Stmt)} {pfx : String} {isLast : Bool}
    {nm c : String}
    (h1 : cfg.includeExtensions.contains (extname nm) = true)
    (h2 : (extname nm == ".js" || extname nm == ".mjs" || extname nm == ".cjs") = true)
    (h3 : extractedSignatures c parseFn showA = []) :
    renderFileEntry cfg true showA parseFn pfx isLast nm (some c)
      = fileCountLine pfx isLast nm c := by
  simp only [renderFileEntry, Bool.true_and]
  rw [h1, h2, h3]
  simp

/-- A file passing the gate with signatures shows its count line followed by
the rendered method lines. -/
theorem renderFileEntry_gate_true {cfg : Config} {showA : Bool}
    {parseFn : String → Except String (List Stmt)} {pfx : String} {isLast : Bool}
    {nm c : String}
    (h1 : cfg.includeExtensions.contains (extname nm) = true)
    (h2 : (extname nm == ".js" || extname nm == ".mjs" || extname nm == ".cjs") = true)
    (h3 : extractedSignatures c parseFn showA ≠ []) :
    renderFileEntry cfg true showA parseFn pfx isLast nm (some c)
      = fileCountLine pfx isLast nm c ++
        renderMethodLines (pfx ++ (if isLast then "   " else "│  "))
          (extractedSignatures c parseFn showA) := by
  have hlen : (extractedSignatures c parseFn showA).length > 0 :=
    List.length_pos.mpr h3
  simp only [renderFileEntry, Bool.true_and]
  rw [h1, h2]
  simp [hlen]

/-! ## Claim theorems -/

/-- C1: for every config and relative path, `shouldExcludePath` is true
exactly when some exclusion rule equals the path, or the path starts with the
rule followed by `/`, or the rule equals a whole `/`-delimited segment of the
path; in particular the rule `lib` matches only a proper substring of the
segment `library` and yields false. -/
theorem shouldExcludePath_characterization :
    (∀ (excludePaths : List String) (relativePath : String),
      shouldExcludePath excludePaths relativePath = true ↔
        ∃ rule ∈ excludePaths,
          relativePath = rule ∨
          startsWithB relativePath (rule ++ "/") = true ∨
          rule ∈ splitSlash relativePath) ∧
    shouldExcludePath ["lib"] "library" = false := by
  constructor
  · intro excludePaths relativePath
    rw [shouldExcludePath, List.any_eq_true]
    constructor
    · rintro ⟨rule, hmem, hrule⟩
      refine ⟨rule, hmem, ?_⟩
      by_cases h1 : relativePath == rule
      · exact Or.inl (by simpa using h1)
      · rw [if_neg h1] at hrule
        by_cases h2 : startsWithB relativePath (rule ++ "/") = true
        · exact Or.inr (Or.inl h2)
        · rw [if_neg h2] at hrule
          exact Or.inr (Or.inr ((string_list_contains_iff _ _).mp hrule))
    · rintro ⟨rule, hmem, hdisj⟩
      refine ⟨rule, hmem, ?_⟩
      rcases hdisj with h | h | h
      · simp [h]
      · by_cases h1 : relativePath == rule
        · simp [h1]
        · simp [if_neg h1, h]
      · by_cases h1 : relativePath == rule
        · simp [h1]
        · rw [if_neg h1]
          by_cases h2 : startsWithB relativePath (rule ++ "/") = true
          · simp [h2]
          · rw [if_neg h2]
            exact (string_list_contains_iff _ _).mpr h
  · decide

/-- C2 counterexample: the two extraction strategies disagree on concrete
declarations both of them emit.  For `const f = async (a = 5) => a` the
structural strategy renders `async f(a = ...)` while the fallback renders
`f(a = 5)` — the parameter text is copied verbatim and the async marker is
dropped; for `export default function f(a) {}` the structural strategy's
default tag `export default f(a)` is collapsed by the fallback to
`export f(a)`. -/
theorem fallback_divergence_counterexample :
    walkSignatures [Stmt.variableDecl
      [⟨some "f", some (Expr.arrowFn true [Param.assignment "a" "5"])⟩]] true
      = ["async f(a = ...)"] ∧
    extractMethodsFromRawContent "const f = async (a = 5) => a" true = ["f(a = 5)"] ∧
    ("async f(a = ...)" : String) ≠ "f(a = 5)" ∧
    walkSignatures [Stmt.exportDefault
      (DefaultPayload.functionDecl (some "f") false [Param.identifier "a"])] true
      = ["f(a)", "export default f(a)"] ∧
    extractMethodsFromRawContent "export default function f(a) \x7b\x7d" true
      = ["export f(a)"] ∧
    ("export default f(a)" : String) ∉ (["export f(a)"] : List String) := by
  refine ⟨rfl, by decide, by decide, rfl, by decide, by decide⟩

/-- C2 (amended): the strategies are not rendering-equivalent.  The
all-declarations fallback pushes `renderAllMatch`, which copies the captured
parameter text verbatim and carries no async and no default marker; the
structural visitors push `renderPlainSig`/`renderExportSig`/`renderDefaultSig`
with the rendered parameter policy.  The renderings of one declaration
coincide precisely in the marker-free cases where the raw text equals the
policy rendering: they agree there (first two conjuncts), differ whenever the
raw parameter text differs from the policy rendering (third), and always
differ from any async-marked or default-exported structural signature (the
name captured by `\w+` cannot absorb the marker's space). -/
theorem fallback_structural_rendering :
    (∀ (nm : String) (ps : List Param),
      renderAllMatch false nm (extractParams ps) = renderPlainSig false nm ps) ∧
    (∀ (nm : String) (ps : List Param),
      renderAllMatch true nm (extractParams ps) = renderExportSig false nm ps) ∧
    (∀ (nm raw : String) (ps : List Param), raw ≠ extractParams ps →
      renderAllMatch false nm raw ≠ renderPlainSig false nm ps) ∧
    (∀ (nm raw : String) (ps : List Param), nm.data.all isWordChar = true →
      renderAllMatch false nm raw ≠ renderPlainSig true nm ps) ∧
    (∀ (nm raw : String) (ps : List Param), nm.data.all isWordChar = true →
      renderAllMatch true nm raw ≠ renderExportSig true nm ps) ∧
    (∀ (nm raw nm2 : String) (a hasExport : Bool) (ps : List Param),
      nm.data.all isWordChar = true →
      renderAllMatch hasExport nm raw ≠ renderDefaultSig a nm2 ps) := by
  refine ⟨?_, ?_, ?_, ?_, ?_, ?_⟩
  · intro nm ps
    simp [renderAllMatch, renderPlainSig]
  · intro nm ps
    simp [renderAllMatch, renderExportSig, renderPlainSig, String.append_assoc]
  · intro nm raw ps hne h
    apply hne
    have hd := congrArg String.data h
    simp only [renderAllMatch, renderPlainSig, Bool.false_eq_true, if_false,
      String.data_append, List.append_assoc, List.nil_append,
      List.singleton_append] at hd
    have h1 := List.append_cancel_left hd
    have h2 := List.append_cancel_right h1
    simp only [List.cons.injEq, true_and] at h2
    exact String.ext h2
  · intro nm raw ps hword h
    have hd := congrArg String.data h
    simp only [renderAllMatch, renderPlainSig, Bool.false_eq_true, if_false, if_true,
      String.data_append, List.append_assoc, List.nil_append,
      List.singleton_append] at hd
    exact word_paren_clash _ _ _ _ 5
      (List.all_eq_true.mp hword) (by decide) (by decide)
      (by intro i hi; interval_cases i <;> decide) hd
  · intro nm raw ps hword h
    have hd := congrArg String.data h
    simp only [renderAllMatch, renderExportSig, renderPlainSig, if_true,
      String.data_append, List.append_assoc, List.nil_append,
      List.singleton_append] at hd
    have hd2 := List.append_cancel_left hd
    exact word_paren_clash _ _ _ _ 5
      (List.all_eq_true.mp hword) (by decide) (by decide)
      (by intro i hi; interval_cases i <;> decide) hd2
  · intro nm raw nm2 a hasExport ps hword h
    have hd := congrArg String.data h
    cases hasExport with
    | true =>
      simp only [renderAllMatch, renderDefaultSig, renderPlainSig, if_true,
        String.data_append, List.append_assoc, List.nil_append,
        List.singleton_append] at hd
      have hsplit :
          (['e', 'x', 'p', 'o', 'r', 't', ' ', 'd', 'e', 'f', 'a', 'u', 'l', 't', ' ']
            : List Char)
          = ['e', 'x', 'p', 'o', 'r', 't', ' '] ++
            ['d', 'e', 'f', 'a', 'u', 'l', 't', ' '] :=
        rfl
      rw [hsplit, List.append_assoc] at hd
      have hd2 := List.append_cancel_left hd
      exact word_paren_clash _ _ _ _ 7
        (List.all_eq_true.mp hword) (by decide) (by decide)
        (by intro i hi; interval_cases i <;> decide) hd2
    | false =>
      simp only [renderAllMatch, renderDefaultSig, renderPlainSig, Bool.false_eq_true,
        if_false, String.data_append, List.append_assoc, List.nil_append,
        List.singleton_append] at hd
      exact word_paren_clash _ _ _ _ 6
        (List.all_eq_true.mp hword) (by decide) (by decide)
        (by intro i hi; interval_cases i <;> decide) hd

/-- C2 witness: the amended policy facts at concrete renderings. -/
theorem fallback_structural_rendering_witness :
    renderAllMatch false "f" (extractParams [Param.identifier "a"])
      = renderPlainSig false "f" [Param.identifier "a"] ∧
    renderAllMatch false "f" "a = 5"
      ≠ renderPlainSig false "f" [Param.assignment "a" "5"] ∧
    renderAllMatch false "f" "a" ≠ renderPlainSig true "f" [Param.identifier "a"] ∧
    renderAllMatch true "f" "a" ≠ renderDefaultSig true "f" [Param.identifier "a"] :=
  ⟨(fallback_structural_rendering).1 "f" [Param.identifier "a"],
    (fallback_structural_rendering).2.2.1 "f" "a = 5" [Param.assignment "a" "5"]
      (by decide),
    (fallback_structural_rendering).2.2.2.1 "f" "a" [Param.identifier "a"]
      (by decide),
    (fallback_structural_rendering).2.2.2.2.2 "f" "a" "f" true true
      [Param.identifier "a"] (by decide)⟩

/-- C3: signature extraction never throws.  For every read outcome, parse
oracle and mode flag, `extractMethodSignatures` returns `Except.ok`: a failed
read yields the empty list, a failed parse yields the textual fallback, and a
successful parse yields the structural walk. -/
theorem extract_never_throws :
    ∀ (readResult : Except String String)
      (parseFn : String → Except String (List Stmt)) (includeAllMethods : Bool),
      (∃ sigs, extractMethodSignatures readResult parseFn includeAllMethods
        = Except.ok sigs) ∧
      (∀ msg, readResult = Except.error msg →
        extractMethodSignatures readResult parseFn includeAllMethods
          = Except.ok []) ∧
      (∀ content err, readResult = Except.ok content →
        parseFn content = Except.error err →
        extractMethodSignatures readResult parseFn includeAllMethods
          = Except.ok (extractMethodsFromRawContent content includeAllMethods)) ∧
      (∀ content ast, readResult = Except.ok content →
        parseFn content = Except.ok ast →
        extractMethodSignatures readResult parseFn includeAllMethods
          = Except.ok (walkSignatures ast includeAllMethods)) := by
  intro r p m
  refine ⟨?_, ?_, ?_, ?_⟩
  · cases r with
    | error e => exact ⟨[], rfl⟩
    | ok c =>
      cases hp : p c with
      | ok ast =>
        exact ⟨walkSignatures ast m, by simp [extractMethodSignatures, hp]⟩
      | error e =>
        exact ⟨extractMethodsFromRawContent c m,
          by simp [extractMethodSignatures, hp]⟩
  · intro msg h
    subst h
    rfl
  · intro content err h hp
    subst h
    simp [extractMethodSignatures, hp]
  · intro content ast h hp
    subst h
    simp [extractMethodSignatures, hp]

/-- C3 witness: extraction on a failed read and on unparseable content. -/
theorem extract_never_throws_witness :
    extractMethodSignatures (Except.error "ENOENT") parseAlwaysFails true
      = Except.ok [] ∧
    extractMethodSignatures (Except.ok "const f = async (a = 5) => a")
      parseAlwaysFails true
      = Except.ok (extractMethodsFromRawContent "const f = async (a = 5) => a" true) :=
  ⟨(extract_never_throws (Except.error "ENOENT") parseAlwaysFails true).2.1
      "ENOENT" rfl,
    (extract_never_throws (Except.ok "const f = async (a = 5) => a")
      parseAlwaysFails true).2.2.1 "const f = async (a = 5) => a" "SyntaxError"
      rfl rfl⟩

/-- C4 counterexample: a configuration file supplying `includeExtensions`
replaces the default extension set instead of extending it, so the built-in
default `.js` is no longer a member of the resolved set. -/
theorem loadConfig_extensions_replaced :
    (loadConfig (some (Except.ok ⟨none, none, none, some [".ts"]⟩))).includeExtensions
      = [".ts"] ∧
    ".js" ∈ DEFAULT_CONFIG.includeExtensions ∧
    ".js" ∉ (loadConfig (some (Except.ok
      ⟨none, none, none, some [".ts"]⟩))).includeExtensions := by
  refine ⟨rfl, by decide, by decide⟩

/-- C4 (amended): for a parsed configuration file, the resolved excluded-path
set is the built-in defaults with the file's `excludePaths` and legacy
`excludeDirs` entries appended (defaults stay a prefix, overrides stay
members), and likewise for excluded files; the included-extension set however
is replaced by the file's `includeExtensions` list whenever that field is
present, and is the default set only when the field is absent. -/
theorem loadConfig_merge_semantics :
    ∀ cf : ConfigFile,
      (∃ t, (loadConfig (some (Except.ok cf))).excludePaths =
        DEFAULT_CONFIG.excludePaths ++ t) ∧
      (∀ xs, cf.excludePaths = some xs →
        ∀ x ∈ xs, x ∈ (loadConfig (some (Except.ok cf))).excludePaths) ∧
      (∀ xs, cf.excludeDirs = some xs →
        ∀ x ∈ xs, x ∈ (loadConfig (some (Except.ok cf))).excludePaths) ∧
      (∃ t, (loadConfig (some (Except.ok cf))).excludeFiles =
        DEFAULT_CONFIG.excludeFiles ++ t) ∧
      (∀ xs, cf.excludeFiles = some xs →
        ∀ x ∈ xs, x ∈ (loadConfig (some (Except.ok cf))).excludeFiles) ∧
      (cf.includeExtensions = none →
        (loadConfig (some (Except.ok cf))).includeExtensions =
          DEFAULT_CONFIG.includeExtensions) ∧
      (∀ xs, cf.includeExtensions = some xs →
        (loadConfig (some (Except.ok cf))).includeExtensions = xs) := by
  intro cf
  refine ⟨⟨cf.excludePaths.getD [] ++ cf.excludeDirs.getD [], ?_⟩, ?_, ?_,
    ⟨cf.excludeFiles.getD [], rfl⟩, ?_, ?_, ?_⟩
  · simp [loadConfig, mergeConfig]
  · intro xs hxs x hx
    simp [loadConfig, mergeConfig, hxs]
    tauto
  · intro xs hxs x hx
    simp [loadConfig, mergeConfig, hxs]
    tauto
  · intro xs hxs x hx
    simp [loadConfig, mergeConfig, hxs]
    tauto
  · intro h
    simp [loadConfig, mergeConfig, h]
  · intro xs h
    simp [loadConfig, mergeConfig, h]

/-- C4 witness: the amended merge semantics evaluated on a concrete
configuration file. -/
theorem loadConfig_merge_semantics_witness :
    "build" ∈ (loadConfig (some (Except.ok
      ⟨some ["build"], some ["dist"], some ["x.lock"], some [".ts"]⟩))).excludePaths ∧
    "dist" ∈ (loadConfig (some (Except.ok
      ⟨some ["build"], some ["dist"], some ["x.lock"], some [".ts"]⟩))).excludePaths ∧
    "x.lock" ∈ (loadConfig (some (Except.ok
      ⟨some ["build"], some ["dist"], some ["x.lock"], some [".ts"]⟩))).excludeFiles ∧
    (loadConfig (some (Except.ok
      ⟨some ["build"], some ["dist"], some ["x.lock"], some [".ts"]⟩))).includeExtensions
      = [".ts"] := by
  refine ⟨?_, ?_, ?_, ?_⟩
  · exact (loadConfig_merge_semantics _).2.1 ["build"] rfl "build" (by decide)
  · exact (loadConfig_merge_semantics _).2.2.1 ["dist"] rfl "dist" (by decide)
  · exact (loadConfig_merge_semantics _).2.2.2.2.1 ["x.lock"] rfl "x.lock" (by decide)
  · exact (loadConfig_merge_semantics _).2.2.2.2.2.2 [".ts"] rfl

/-- C5 counterexample: a default-exported anonymous arrow function is rendered
by the structural strategy with the literal `function` in the name position
(`export default async function()`), not with the literal `default` the claim
requires. -/
theorem exportDefault_arrow_counterexample :
    walkSignatures
      [Stmt.exportDefault (DefaultPayload.exprPayload (Expr.arrowFn true []))] false
      = ["export default async function()"] ∧
    ("export default async function()" : String) ≠ "export default async default()" :=
  ⟨rfl, by decide⟩

/-- C5 (amended): in either mode the `ExportDefaultDeclaration` visitor emits
exactly one default-tagged signature, reading `isAsync` from the declaration's
own marker, and the name falls back to the literal `default` only for an
anonymous function declaration; an anonymous arrow or function expression is
rendered with the literal `function` in the name position.  A named default
function declaration additionally gets a plain signature from the
`FunctionDeclaration` visitor in all-declarations mode. -/
theorem exportDefault_visitor_emission :
    (∀ (mode a : Bool) (ps : List Param),
      walkSignatures [Stmt.exportDefault (DefaultPayload.functionDecl none a ps)] mode
        = [renderDefaultSig a "default" ps]) ∧
    (∀ (mode a : Bool) (ps : List Param),
      walkSignatures
        [Stmt.exportDefault (DefaultPayload.exprPayload (Expr.arrowFn a ps))] mode
        = [renderDefaultSig a "function" ps]) ∧
    (∀ (mode a : Bool) (ps : List Param),
      walkSignatures
        [Stmt.exportDefault (DefaultPayload.exprPayload (Expr.functionExpr a ps))] mode
        = [renderDefaultSig a "function" ps]) ∧
    (∀ (nm : String) (a : Bool) (ps : List Param),
      walkSignatures
        [Stmt.exportDefault (DefaultPayload.functionDecl (some nm) a ps)] false
        = [renderDefaultSig a nm ps]) ∧
    (∀ (nm : String) (a : Bool) (ps : List Param),
      walkSignatures
        [Stmt.exportDefault (DefaultPayload.functionDecl (some nm) a ps)] true
        = [renderPlainSig a nm ps, renderDefaultSig a nm ps]) ∧
    walkSignatures [Stmt.exportDefault (DefaultPayload.functionDecl none true [])] false
      = ["export default async default()"] := by
  refine ⟨?_, ?_, ?_, ?_, ?_, rfl⟩
  · intro mode a ps; rfl
  · intro mode a ps; rfl
  · intro mode a ps; rfl
  · intro nm a ps; rfl
  · intro nm a ps; rfl

/-- C6 counterexample: with the default configuration, a `.json` file's
extension is in the included-extension set and the extractor would return a
non-empty signature list for its content, yet the rendered file entry carries
no signature lines — the extraction gate additionally requires a
`.js`/`.mjs`/`.cjs` extension. -/
theorem json_extension_not_extracted :
    DEFAULT_CONFIG.includeExtensions.contains (extname "a.json") = true ∧
    extractedSignatures "const f = (a) => a" parseOracleArrow true = ["f(a)"] ∧
    renderFileEntry DEFAULT_CONFIG true true parseOracleArrow "" true "a.json"
      (some "const f = (a) => a")
      = fileCountLine "" true "a.json" "const f = (a) => a" := by
  refine ⟨by decide, rfl, rfl⟩

/-- C6 (amended): with signature display enabled, a surviving readable file
gets signatures attached exactly when its extension is in the resolved
included-extension set and additionally is one of `.js`, `.mjs`, `.cjs` (and
extraction is non-empty); failing either half of the gate leaves only the
count line. -/
theorem extension_gate :
    ∀ (cfg : Config) (showA : Bool) (parseFn : String → Except String (List Stmt))
      (pfx : String) (isLast : Bool) (nm c : String),
      ((extname nm == ".js" || extname nm == ".mjs" || extname nm == ".cjs") = false →
        renderFileEntry cfg true showA parseFn pfx isLast nm (some c)
          = fileCountLine pfx isLast nm c) ∧
      (cfg.includeExtensions.contains (extname nm) = false →
        renderFileEntry cfg true showA parseFn pfx isLast nm (some c)
          = fileCountLine pfx isLast nm c) ∧
      (cfg.includeExtensions.contains (extname nm) = true →
        (extname nm == ".js" || extname nm == ".mjs" || extname nm == ".cjs") = true →
        extractedSignatures c parseFn showA ≠ [] →
        renderFileEntry cfg true showA parseFn pfx isLast nm (some c)
          = fileCountLine pfx isLast nm c ++
            renderMethodLines (pfx ++ (if isLast then "   " else "│  "))
              (extractedSignatures c parseFn showA)) := by
  intro cfg showA parseFn pfx isLast nm c
  refine ⟨?_, ?_, renderFileEntry_gate_true⟩
  · intro hjs
    exact renderFileEntry_gate_false (by rw [hjs]; simp)
  · intro hinc
    exact renderFileEntry_gate_false (by rw [hinc]; rfl)

/-- C6 witness: the gate at a `.json` and at a `.js` file. -/
theorem extension_gate_witness :
    renderFileEntry DEFAULT_CONFIG true true parseOracleArrow "" true "data.json"
      (some "x") = fileCountLine "" true "data.json" "x" ∧
    renderFileEntry DEFAULT_CONFIG true true parseOracleArrow "" true "b.js"
      (some "const f = (a) => a")
      = fileCountLine "" true "b.js" "const f = (a) => a" ++
        renderMethodLines "   " (extractedSignatures "const f = (a) => a"
          parseOracleArrow true) :=
  ⟨(extension_gate DEFAULT_CONFIG true parseOracleArrow "" true "data.json" "x").1
      (by decide),
    (extension_gate DEFAULT_CONFIG true parseOracleArrow "" true "b.js"
      "const f = (a) => a").2.2 (by decide) (by decide) (by decide)⟩

/-- C7: at every level the processed item list is the sorted surviving
directories followed by the sorted surviving files: every entry of the first
block is a directory, every entry of the second a file, each block is sorted
by name, and a directory named `zzz` precedes a file named `aaa`. -/
theorem level_ordering :
    ∀ (cfg : Config) (rel : String) (entries dirs files : List Entry),
      partitionItemsM cfg rel entries = Except.ok (dirs, files) →
      (∀ e ∈ sortByName dirs, e.isDirectory = true) ∧
      (∀ e ∈ sortByName files, e.isDirectory = false) ∧
      sortedByNameB (sortByName dirs) = true ∧
      sortedByNameB (sortByName files) = true ∧
      orderedLevelItems [Entry.dir "zzz" true []] [Entry.file "aaa" true (some "")]
        = [Entry.dir "zzz" true [], Entry.file "aaa" true (some "")] := by
  intro cfg rel entries dirs files h
  cases hf : filterStatM (fileKeep cfg) entries with
  | error u => rw [partitionItemsM, hf] at h; cases h
  | ok fs =>
    cases hd : filterStatM (dirKeep cfg rel) entries with
    | error u => rw [partitionItemsM, hf, hd] at h; cases h
    | ok ds =>
      rw [partitionItemsM, hf, hd] at h
      cases h
      have hds := filterStatM_ok_eq hd
      have hfs := filterStatM_ok_eq hf
      refine ⟨?_, ?_, sortedByNameB_sort _, sortedByNameB_sort _, rfl⟩
      · intro e he
        have hm : e ∈ dirs := mem_sortByName.mp he
        rw [hds] at hm
        have hk := List.of_mem_filter hm
        simp only [dirKeep, Bool.and_eq_true] at hk
        exact hk.1.1
      · intro e he
        have hm : e ∈ files := mem_sortByName.mp he
        rw [hfs] at hm
        have hk := List.of_mem_filter hm
        simp only [fileKeep, Bool.and_eq_true, Bool.not_eq_true'] at hk
        exact hk.1.1

/-- C7 witness: the ordering facts on a concrete two-entry listing. -/
theorem level_ordering_witness :
    (∀ e ∈ sortByName [Entry.dir "zzz" true []], e.isDirectory = true) ∧
    (∀ e ∈ sortByName [Entry.file "aaa" true (some "")], e.isDirectory = false) ∧
    sortedByNameB (sortByName [Entry.dir "zzz" true []]) = true := by
  have h := level_ordering DEFAULT_CONFIG ""
    [Entry.dir "zzz" true [], Entry.file "aaa" true (some "")]
    [Entry.dir "zzz" true []] [Entry.file "aaa" true (some "")] rfl
  exact ⟨h.1, h.2.1, h.2.2.1⟩

/-- C8 counterexample: a file whose `statSync` fails does not appear with an
unreadable marker — the stat call inside the filter callbacks is outside the
per-file `try`, so the whole traversal aborts, discarding even the healthy
sibling. -/
theorem stat_failure_aborts :
    generateTreeFuel DEFAULT_CONFIG none true false parseAlwaysFails 5
      [Entry.file "good" true (some "hello"), Entry.file "bad" false (some "data")]
      0 "" "" = Except.error () := by
  rfl

/-- C8 (amended): a file whose content read fails still appears with the
literal ` (error reading file)` marker in place of its line count and with no
signature lines, and as long as every stat succeeds the traversal completes
(returns `ok`) even if every file's content is unreadable; a failing stat, by
contrast, makes the partitioning filters throw, aborting the traversal. -/
theorem content_vs_stat_failure :
    (∀ (fuel : Nat) (cfg : Config) (maxD : Option Nat) (showM showA : Bool)
      (parseFn : String → Except String (List Stmt))
      (entries : List Entry) (level : Nat) (rel pfx : String),
      allStatsOkFuel fuel entries = true →
      ∃ s, generateTreeFuel cfg maxD showM showA parseFn fuel entries level rel pfx
        = Except.ok s) ∧
    (∀ (cfg : Config) (showM showA : Bool)
      (parseFn : String → Except String (List Stmt))
      (pfx : String) (isLast : Bool) (nm : String),
      renderFileEntry cfg showM showA parseFn pfx isLast nm none
        = fileBaseLine pfx isLast nm ++ " (error reading file)\n") ∧
    (∀ (cfg : Config) (rel : String) (entries : List Entry) (e : Entry),
      e ∈ entries → e.statOk = false →
      partitionItemsM cfg rel entries = Except.error ()) := by
  refine ⟨?_, ?_, ?_⟩
  · intro fuel cfg maxD showM showA parseFn entries level rel pfx h
    exact generateTreeFuel_ok fuel cfg maxD showM showA parseFn entries level rel pfx h
  · intro cfg showM showA parseFn pfx isLast nm
    rfl
  · intro cfg rel entries e hmem hfail
    rw [partitionItemsM, filterStatM_error hmem hfail]

/-- C8 witness: a traversal over two content-unreadable files completes, the
unreadable marker line, and a stat failure aborting the partitioning. -/
theorem content_vs_stat_failure_witness :
    (∃ s, generateTreeFuel DEFAULT_CONFIG none true false parseAlwaysFails 3
      [Entry.file "u1" true none, Entry.file "u2" true none] 0 "" ""
      = Except.ok s) ∧
    renderFileEntry DEFAULT_CONFIG true false parseAlwaysFails "" true "u1" none
      = fileBaseLine "" true "u1" ++ " (error reading file)\n" ∧
    partitionItemsM DEFAULT_CONFIG "" [Entry.file "bad" false (some "x")]
      = Except.error () :=
  ⟨(content_vs_stat_failure).1 3 DEFAULT_CONFIG none true false parseAlwaysFails
      [Entry.file "u1" true none, Entry.file "u2" true none] 0 "" "" rfl,
    (content_vs_stat_failure).2.1 DEFAULT_CONFIG true false parseAlwaysFails ""
      true "u1",
    (content_vs_stat_failure).2.2 DEFAULT_CONFIG ""
      [Entry.file "bad" false (some "x")] (Entry.file "bad" false (some "x"))
      (by simp) rfl⟩

/-- C9: in all-declarations mode a directly exported function declaration —
and a directly exported variable bound to an arrow or function expression —
produces two signatures for the one declaration: the plain one from the
`FunctionDeclaration`/`VariableDeclarator` visitor (fired first, since
acorn-walk's `simple` visits children before the export node) and the
export-tagged one from the `ExportNamedDeclaration` visitor; in exported-only
mode the same declaration yields only the export-tagged signature. -/
theorem exportNamed_double_emission :
    (∀ (nm : String) (a : Bool) (ps : List Param),
      walkSignatures [Stmt.exportNamed (NamedPayload.functionDecl (some nm) a ps)] true
        = [renderPlainSig a nm ps, renderExportSig a nm ps]) ∧
    (∀ (nm : String) (a : Bool) (ps : List Param),
      walkSignatures [Stmt.exportNamed (NamedPayload.variableDecl
        [⟨some nm, some (Expr.arrowFn a ps)⟩])] true
        = [renderPlainSig a nm ps, renderExportSig a nm ps]) ∧
    (∀ (nm : String) (a : Bool) (ps : List Param),
      walkSignatures [Stmt.exportNamed (NamedPayload.variableDecl
        [⟨some nm, some (Expr.functionExpr a ps)⟩])] true
        = [renderPlainSig a nm ps, renderExportSig a nm ps]) ∧
    walkSignatures [Stmt.exportNamed (NamedPayload.functionDecl (some "add") false
      [Param.identifier "a", Param.identifier "b"])] false
      = [renderExportSig false "add" [Param.identifier "a", Param.identifier "b"]] := by
  refine ⟨?_, ?_, ?_, rfl⟩
  · intro nm a ps; rfl
  · intro nm a ps; rfl
  · intro nm a ps; rfl

/-- C10: the included-extension set never affects a file's visibility.  The
file-survival predicate depends only on the excluded-file set (and hiddenness
and kind), a readable surviving file's rendered entry always begins with its
name and line count whatever the configuration, and when its extension is
outside the included set the entry is exactly the count line — extension
membership gates only the signature block. -/
theorem extension_not_visibility :
    ∀ (cfg cfg2 : Config) (e : Entry) (showA : Bool)
      (parseFn : String → Except String (List Stmt))
      (pfx : String) (isLast : Bool) (nm c : String),
      (cfg.excludeFiles = cfg2.excludeFiles → fileKeep cfg e = fileKeep cfg2 e) ∧
      (∃ restOut, renderFileEntry cfg true showA parseFn pfx isLast nm (some c)
        = fileCountLine pfx isLast nm c ++ restOut) ∧
      (cfg.includeExtensions.contains (extname nm) = false →
        renderFileEntry cfg true showA parseFn pfx isLast nm (some c)
          = fileCountLine pfx isLast nm c) := by
  intro cfg cfg2 e showA parseFn pfx isLast nm c
  refine ⟨?_, ?_, ?_⟩
  · intro h
    simp [fileKeep, shouldExcludeFile, h]
  · by_cases hinc : cfg.includeExtensions.contains (extname nm) = true
    · by_cases hjs : (extname nm == ".js" || extname nm == ".mjs" ||
          extname nm == ".cjs") = true
      · by_cases hne : extractedSignatures c parseFn showA = []
        · refine ⟨"", ?_⟩
          rw [renderFileEntry_gate_true_empty hinc hjs hne]
          simp
        · exact ⟨_, renderFileEntry_gate_true hinc hjs hne⟩
      · refine ⟨"", ?_⟩
        rw [renderFileEntry_gate_false
          (by rw [Bool.eq_false_iff.mpr hjs]; simp)]
        simp
    · refine ⟨"", ?_⟩
      rw [renderFileEntry_gate_false
        (by rw [Bool.eq_false_iff.mpr hinc]; rfl)]
      simp
  · intro hinc
    exact renderFileEntry_gate_false (by rw [hinc]; rfl)

/-- C10 witness: survival of a `.xyz` file is unchanged by emptying the
included-extension set, and its rendered entry is exactly its count line. -/
theorem extension_not_visibility_witness :
    fileKeep configNoExtensions (Entry.file "notes.xyz" true (some "n"))
      = fileKeep DEFAULT_CONFIG (Entry.file "notes.xyz" true (some "n")) ∧
    renderFileEntry DEFAULT_CONFIG true false parseAlwaysFails "" true "notes.xyz"
      (some "line1\nline2") = fileCountLine "" true "notes.xyz" "line1\nline2" :=
  ⟨(extension_not_visibility configNoExtensions DEFAULT_CONFIG
      (Entry.file "notes.xyz" true (some "n")) false parseAlwaysFails "" true
      "x" "y").1 rfl,
    (extension_not_visibility DEFAULT_CONFIG DEFAULT_CONFIG
      (Entry.file "notes.xyz" true (some "n")) false parseAlwaysFails "" true
      "notes.xyz" "line1\nline2").2.2 (by decide)⟩
